import Mathlib

/-!
Shallow embedding of `src/assets/Embeds.js` (`MessageEmbed`), a plain-text
"embed" renderer whose core is a fixed-width chunking/wrapping algorithm for
titles and descriptions.

Modelling conventions:
* JS strings are `List Char`; `String.prototype.slice(a, b)` with the
  non-negative indices that occur in this program is `sliceN`.
* JS numbers that the program stores and compares are integers here; the
  widths the program ever uses for wrapping (`28`, or a value accepted by
  `sizeEmbed`, hence in `[3,46]`) are naturals.
* `null`/`undefined`/non-string arguments are explicit constructors of small
  argument types; a thrown exception is an `err` field in the method result,
  together with the state of the object at the moment of the throw.
-/

namespace HedystiaMD

/-- The two JS error classes this file throws. -/
inductive JSError where
  | rangeError
  | typeError
deriving DecidableEq, Repr

/-- The value stored in `this.px`: `null` (initial / from the constructor),
a plain number (a constructor-supplied `data.px`), or the record
`{char, line}` written by `sizeEmbed` (whose fields the dead reset branch
would set to `null`, hence the `Option`s). Every `char` the program stores
comes from `sizeEmbed`, i.e. is a natural number in `[3,46]`. -/
inductive PxVal where
  | nullV
  | num (n : Int)
  | obj (char : Option Nat) (line : Option (List Char))
deriving DecidableEq, Repr

/-- The value stored in `this.timestamp`: `null`, a number
(`new Date(data.timestamp).getTime()` from the constructor, on an integer
millisecond input), or a string (written by `setTimestamp`). -/
inductive TsVal where
  | nullV
  | num (n : Int)
  | str (s : List Char)
deriving DecidableEq, Repr

/-- An argument that is either a JS string or some non-string value
(`typeof arg !== "string"`). -/
inductive StrArg where
  | str (s : List Char)
  | nonStr
deriving DecidableEq, Repr

/-- The argument of `sizeEmbed`: `undefined` (no argument), a number, or any
other non-number value. -/
inductive SizeArg where
  | undef
  | num (n : Int)
  | other
deriving DecidableEq, Repr

/-- A `{name, value}` candidate field; validated fields store `.str` values. -/
structure FieldData where
  name : StrArg
  value : StrArg
deriving DecidableEq, Repr

/-- The observable state of a `MessageEmbed` instance. -/
structure Embed where
  px : PxVal
  title : Option (List Char)
  description : Option (List Char)
  timestamp : TsVal
  fields : List FieldData
  footer : Option (List Char)
deriving DecidableEq, Repr

/-- What a method invocation returns in JS. -/
inductive Ret where
  | self
  | undef
deriving DecidableEq, Repr

/-- Result of running a method on an embed: the state of the object after the
call (mutations are applied exactly where the source assigns, so a throw
leaves `state` at the pre-assignment value), the returned value (`none` when
the method threw), and the thrown error, if any. -/
structure MRes (α : Type) where
  state : Embed
  ret : Option α
  err : Option JSError
deriving DecidableEq, Repr

/-- `s.slice(a, b)` for the non-negative indices used by this program:
characters from position `a` (inclusive) to `b` (exclusive), clamped to the
string, empty when `b ≤ a`. -/
def sliceN (s : List Char) (a b : Nat) : List Char :=
  (s.drop a).take (b - a)

/-- The backquote character, `"` ++ "`" ++ "`". -/
def backquote : Char := '\x60'

/-- The `"` ++ "```" ++ "`"` code-fence string used by `setFooter`. -/
def codeFence : List Char := List.replicate 3 backquote

/-- The `line_convert` loop of `sizeEmbed`: `fixmath` box-drawing dashes,
appended one at a time (`line_convert = line_convert + "─"`). -/
def lineConvert : Nat → List Char
  | 0 => []
  | n + 1 => lineConvert n ++ ['─']

/-- The guard of `sizeEmbed`'s reset branch,
`!typeof px === "number" && px === undefined`: `!` binds tighter than `===`,
`typeof px` is always a non-empty string, so `!typeof px` is `false`,
`false === "number"` is `false`, and the conjunction is `false` for every
argument — the branch is dead. -/
def sizeEmbedGuard (_px : SizeArg) : Bool := false

/-- `sizeEmbed(px)` (`src/assets/Embeds.js:103-132`). A number in `(2,47)`
stores `{char: px, line: "─" * |px-4|}` and returns `this`; a number outside
throws a `RangeError` before any assignment; any other argument (including no
argument) falls through the whole body and returns `undefined`, mutating
nothing, because the reset guard is dead (see `sizeEmbedGuard`). -/
def sizeEmbed (e : Embed) (px : SizeArg) : MRes Ret :=
  if sizeEmbedGuard px then
    ⟨{ e with px := PxVal.obj none none }, some Ret.self, none⟩
  else
    match px with
    | SizeArg.num n =>
        if 2 < n ∧ n < 47 then
          let embedsize := PxVal.obj (some n.toNat) (some (lineConvert (n - 4).natAbs))
          ⟨{ e with px := embedsize }, some Ret.self, none⟩
        else
          ⟨e, none, some JSError.rangeError⟩
    | _ => ⟨e, some Ret.undef, none⟩

/-- The effective wrapping width: `max = 28`, then
`if (size_embed !== null) max = size_embed.char ?? max`. On a plain number
`.char` is `undefined`, so the default `28` survives. -/
def effMax : PxVal → Nat
  | PxVal.nullV => 28
  | PxVal.num _ => 28
  | PxVal.obj c _ => c.getD 28

/-- State of the first (`for (let i = 0; i < o; i++)`) scanning loop of the
long-string branch of `setTitle`/`setDescription`: `parts` is the next
multiple of `max` to record, `pcl` is `parts_count_loop`, `help` is
`help_loop`, `arrParts` is `arr_parts`. The write-only `parts_count` and the
loop-local `final_count` are inlined. -/
structure ScanSt where
  parts : Nat
  pcl : Nat
  help : Bool
  arrParts : List Nat
deriving DecidableEq, Repr

/-- One iteration of the scanning loop at index `i`: record `i` when it hits
the running multiple `parts`, and at `i = lenstr` append
`final_count = i - lastElement + lastElement` (with
`lastElement = arr_parts[arr_parts.length - 1]`; the list is never empty
there in any reachable call, since `lenstr > max ≥ 3` forces a push at
`i = max`). -/
def scanStep (lenstr m : Nat) (st : ScanSt) (i : Nat) : ScanSt :=
  let st1 :=
    if i = st.parts then
      { st with arrParts := st.arrParts ++ [i], pcl := st.pcl + 1,
                parts := st.parts + m }
    else st
  if i = lenstr then
    let lastElement := st1.arrParts.getLast?.getD 0
    { st1 with help := true,
               arrParts := st1.arrParts ++ [i - lastElement + lastElement] }
  else st1

/-- The whole scanning loop: `o = lenstr + 1` iterations starting from
`parts = max`, `parts_count_loop = 0`, `help_loop = false`, `arr_parts = []`. -/
def scanT (lenstr m : Nat) : ScanSt :=
  (List.range (lenstr + 1)).foldl (scanStep lenstr m) ⟨m, 0, false, []⟩

/-- The second (`for (let i = 0; i < parts_count_loop; i++)`) loop: emit the
slice `[liceit, liceitagain)` decorated by `dec` for every ordinary index,
and at `i = see_final` emit `slice(arr_parts[i-1], arr_parts[i])` and break.
`fuel` is the number of remaining iterations. -/
def wrapLoop (dec : List Char → List Char) (s : List Char) (m : Nat)
    (arrParts : List Nat) (seeFinal : Nat) :
    Nat → Nat → Nat → Nat → List (List Char)
  | 0, _, _, _ => []
  | fuel + 1, i, liceit, liceitagain =>
    if i = seeFinal then
      [dec (sliceN s (arrParts.getD (i - 1) 0) (arrParts.getD i 0))]
    else
      dec (sliceN s liceit liceitagain)
        :: wrapLoop dec s m arrParts seeFinal fuel (i + 1) (liceit + m)
            (liceitagain + m)

/-- The long-string branch (`lenstr > max`) of `setTitle`/`setDescription`:
scan, bump `parts_count_loop` when `help_loop` fired, then run the slicing
loop with `see_final = parts_count_loop - 1`, `liceit = 0`,
`liceitagain = max`. Produces the list of decorated lines (`arr`). -/
def wrapAll (dec : List Char → List Char) (s : List Char) (m : Nat) :
    List (List Char) :=
  let lenstr := s.length
  let st := scanT lenstr m
  let pcl := if st.help then st.pcl + 1 else st.pcl
  wrapLoop dec s m st.arrParts (pcl - 1) pcl 0 0 m

/-- The joining loop: `arr[0] + "\n" + ... + "\n" + arr[last]` (a `+ "\n"`
after every element except the last, where the loop breaks). -/
def joinNL : List (List Char) → List Char
  | [] => []
  | [l] => l
  | l :: ls => l ++ '\n' :: joinNL ls

/-- Title line decoration: `wall + space + " *" + chunk + "* "`. -/
def decTitle (c : List Char) : List Char :=
  '│' :: ' ' :: ' ' :: '*' :: c ++ ['*', ' ']

/-- Description line decoration: `wall + space + chunk`. -/
def decDesc (c : List Char) : List Char :=
  '│' :: ' ' :: c

/-- The value assigned to `this.title` for a string argument: the wrapped
lines joined by newlines when `lenstr > max`, one decorated line when
`lenstr < moremax = max + 1` (always the case otherwise), and the initial
`""` on the unreachable remaining path. The computed-but-unused `spacessums`
padding of the source is dead code and not modelled. -/
def titleEmbedStr (max : Nat) (s : List Char) : List Char :=
  let lenstr := s.length
  let moremax := max + 1
  if lenstr > max then
    joinNL (wrapAll decTitle s max)
  else if lenstr < moremax then
    decTitle s
  else []

/-- The value assigned to `this.description` for a non-empty string argument:
as for the title but with plain decoration and the whole block wrapped in a
leading and a trailing newline. -/
def descEmbedStr (max : Nat) (s : List Char) : List Char :=
  let lenstr := s.length
  let moremax := max + 1
  if lenstr > max then
    '\n' :: joinNL (wrapAll decDesc s max) ++ ['\n']
  else if lenstr < moremax then
    '\n' :: decDesc s ++ ['\n']
  else []

/-- `setTitle(title)` (`src/assets/Embeds.js:312-408`): first
`this.sizeEmbed()` (a no-op that would propagate a throw), then compute the
width from `this.px`, then either throw `TypeError` on a non-string (before
any assignment) or assign the wrapped text and return `this`. -/
def setTitle (e : Embed) (arg : StrArg) : MRes Unit :=
  let r := sizeEmbed e SizeArg.undef
  match r.err with
  | some er => ⟨r.state, none, some er⟩
  | none =>
    let e1 := r.state
    match arg with
    | StrArg.nonStr => ⟨e1, none, some JSError.typeError⟩
    | StrArg.str s =>
        ⟨{ e1 with title := some (titleEmbedStr (effMax e1.px) s) },
          some (), none⟩

/-- `setDescription(description)` (`src/assets/Embeds.js:159-261`): like
`setTitle`, but an empty string throws `TypeError` (before any assignment)
and the block is newline-wrapped. -/
def setDescription (e : Embed) (arg : StrArg) : MRes Unit :=
  let r := sizeEmbed e SizeArg.undef
  match r.err with
  | some er => ⟨r.state, none, some er⟩
  | none =>
    let e1 := r.state
    match arg with
    | StrArg.nonStr => ⟨e1, none, some JSError.typeError⟩
    | StrArg.str s =>
        if s.length < 1 then
          ⟨e1, none, some JSError.typeError⟩
        else
          ⟨{ e1 with description := some (descEmbedStr (effMax e1.px) s) },
            some (), none⟩

/-- `setFooter(footer)` (`src/assets/Embeds.js:268-286`): a non-string throws
`TypeError`, a string longer than 20 characters throws `RangeError` (both
before any assignment); otherwise
`footer = wall + space + "` ++ "```" ++ `" + footer + "` ++ "```" ++ `"`. -/
def setFooter (e : Embed) (arg : StrArg) : MRes Unit :=
  match arg with
  | StrArg.nonStr => ⟨e, none, some JSError.typeError⟩
  | StrArg.str f =>
      if f.length > 20 then
        ⟨e, none, some JSError.rangeError⟩
      else
        ⟨{ e with footer := some ('│' :: ' ' :: codeFence ++ f ++ codeFence) },
          some (), none⟩

/-- Modelled from the spec: `Util.verifyString` (from `src/assets/Util.js`,
which is not among the sources) — the "string-verification routine used for
footers (non-empty, trimmed, stringifiable)": a non-string is rejected and an
empty string is rejected with the supplied error class, otherwise the string
is returned. -/
def verifyString (a : StrArg) (errClass : JSError) :
    Except JSError (List Char) :=
  match a with
  | StrArg.nonStr => Except.error errClass
  | StrArg.str s => if s.isEmpty then Except.error errClass else Except.ok s

/-- `normalizeField(name, value)`: both components verified with `RangeError`
as the error class. -/
def normalizeField (f : FieldData) : Except JSError FieldData :=
  match verifyString f.name JSError.rangeError with
  | Except.error er => Except.error er
  | Except.ok n =>
    match verifyString f.value JSError.rangeError with
    | Except.error er => Except.error er
    | Except.ok v => Except.ok ⟨StrArg.str n, StrArg.str v⟩

/-- `normalizeFields(...fields)`: the variadic/nested input, already
flattened (`flat(2)`), validated element-wise in order; the first failure
propagates. -/
def normalizeFields (fs : List FieldData) : Except JSError (List FieldData) :=
  fs.mapM normalizeField

/-- `addFields(...fields)`: `this.fields.push(...normalizeFields(fields))` —
the argument spread is evaluated before `push`, so a validation throw leaves
`fields` untouched. -/
def addFields (e : Embed) (fs : List FieldData) : MRes Unit :=
  match normalizeFields fs with
  | Except.error er => ⟨e, none, some er⟩
  | Except.ok nfs => ⟨{ e with fields := e.fields ++ nfs }, some (), none⟩

/-- `addField(name, value) = addFields({name, value})`. -/
def addField (e : Embed) (name value : StrArg) : MRes Unit :=
  addFields e [⟨name, value⟩]

/-- The `timestamp` slot of the snapshot returned by `toJSON`: either the
stored value itself (when falsy) or a `Date` built from it. -/
inductive TsOut where
  | nullV
  | num (n : Int)
  | str (s : List Char)
  | dateOf (t : TsVal)
deriving DecidableEq, Repr

/-- JS truthiness of a stored timestamp value. -/
def tsTruthy : TsVal → Bool
  | TsVal.nullV => false
  | TsVal.num n => n != 0
  | TsVal.str s => !s.isEmpty

/-- A stored timestamp value viewed as a snapshot value (identity injection). -/
def tsOutOfVal : TsVal → TsOut
  | TsVal.nullV => TsOut.nullV
  | TsVal.num n => TsOut.num n
  | TsVal.str s => TsOut.str s

/-- The plain-object snapshot of `toJSON` (`src/assets/Embeds.js:414-423`). -/
structure EmbedJSON where
  px : PxVal
  title : Option (List Char)
  description : Option (List Char)
  timestamp : TsOut
  fields : List FieldData
  footer : Option (List Char)
deriving DecidableEq, Repr

/-- `toJSON()`: every key passed through except `timestamp`, which is
`this.timestamp && new Date(this.timestamp)` — the stored value itself when
falsy, a `Date` over it when truthy. -/
def toJSON (e : Embed) : EmbedJSON :=
  { px := e.px
    title := e.title
    description := e.description
    timestamp :=
      if tsTruthy e.timestamp then TsOut.dateOf e.timestamp
      else tsOutOfVal e.timestamp
    fields := e.fields
    footer := e.footer }

/-- The constructor's plain data record (all keys optional). The
`timestamp` key, when present, is an integer millisecond value, for which
`new Date(v).getTime() = v`. -/
structure EmbedData where
  px : Option PxVal := none
  title : Option (List Char) := none
  description : Option (List Char) := none
  timestamp : Option Int := none
  fields : Option (List FieldData) := none
  footer : Option (List Char) := none
deriving DecidableEq, Repr

/-- Modelled from the spec: `Util.cloneObject` (from `src/assets/Util.js`,
not among the sources) — a shallow clone of a plain `{name, value}` record,
which on immutable values is the identity. -/
def cloneObject (f : FieldData) : FieldData := f

/-- The `#setup` constructor body (`src/assets/Embeds.js:20-67`):
`?? null` defaulting for `px`/`title`/`description`/`footer`,
`new Date(data.timestamp).getTime()` when the key is present, and field
normalization (which can throw) unless `skipValidation`. -/
def mkEmbed (data : EmbedData) (skipValidation : Bool) :
    Except JSError Embed :=
  let fldsE : Except JSError (List FieldData) :=
    match data.fields with
    | none => Except.ok []
    | some fs =>
        if skipValidation then Except.ok (fs.map cloneObject)
        else normalizeFields fs
  match fldsE with
  | Except.error er => Except.error er
  | Except.ok flds =>
      Except.ok
        { px := data.px.getD PxVal.nullV
          title := data.title
          description := data.description
          timestamp :=
            match data.timestamp with
            | some v => TsVal.num v
            | none => TsVal.nullV
          fields := flds
          footer := data.footer }

/-- The chunk decomposition underlying the spec's "wrapText": the undecorated
slices that the long branch produces, or the whole string as its single
chunk when no splitting happens. -/
def wrapChunks (s : List Char) (m : Nat) : List (List Char) :=
  if s.length > m then wrapAll (fun c => c) s m else [s]

/-! ### Helper lemmas: the scanning loop -/

lemma sizeEmbed_undef (e : Embed) :
    sizeEmbed e SizeArg.undef = ⟨e, some Ret.undef, none⟩ := rfl

lemma lineConvert_replicate (n : Nat) :
    lineConvert n = List.replicate n '─' := by
  induction n with
  | zero => rfl
  | succ n ih =>
    show lineConvert n ++ ['─'] = _
    rw [ih, ← List.replicate_succ']

lemma div_pred (m n : Nat) (hn : 1 ≤ n) :
    n / m = (n - 1) / m + if m ∣ n then 1 else 0 := by
  have h := Nat.succ_div (n - 1) m
  rw [Nat.sub_add_cancel hn] at h
  exact h

lemma scanSt_mk_eq {a b a' b' : Nat} {c c' : Bool}
    {l l' : List Nat} (h1 : a = a') (h2 : b = b') (h3 : c = c')
    (h4 : l = l') : ScanSt.mk a b c l = ScanSt.mk a' b' c' l' := by
  rw [h1, h2, h3, h4]

lemma scan_prefix (lenstr m : Nat) (hm : 1 ≤ m) :
    ∀ n, 1 ≤ n → n ≤ lenstr →
    (List.range n).foldl (scanStep lenstr m) ⟨m, 0, false, []⟩ =
      ⟨((n - 1) / m + 1) * m, (n - 1) / m, false,
        (List.range ((n - 1) / m)).map (fun k => (k + 1) * m)⟩ := by
  intro n
  induction n with
  | zero => intro h1 _; exact absurd h1 (by decide)
  | succ n ih =>
    intro _ hle
    rcases Nat.eq_zero_or_pos n with h0 | hpos
    · subst h0
      rw [show List.range 1 = [0] from rfl]
      simp only [List.foldl_cons, List.foldl_nil]
      simp only [scanStep]
      rw [if_neg (show ¬ ((0 : Nat) = m) by omega),
        if_neg (show ¬ ((0 : Nat) = lenstr) by omega)]
      simp [Nat.zero_div]
    · have ihn := ih hpos (Nat.le_of_succ_le hle)
      rw [List.range_succ, List.foldl_append, ihn]
      simp only [List.foldl_cons, List.foldl_nil, Nat.add_sub_cancel]
      have hnl : ¬ (n = lenstr) := by omega
      by_cases hdvd : m ∣ n
      · have hnd : (n - 1) / m + 1 = n / m := by
          have hh := div_pred m n hpos
          rw [if_pos hdvd] at hh
          omega
        have hpe : n = ((n - 1) / m + 1) * m := by
          rw [hnd, Nat.div_mul_cancel hdvd]
        simp only [scanStep]
        rw [if_pos hpe, if_neg hnl]
        refine scanSt_mk_eq ?_ hnd rfl ?_
        · rw [← hnd]; ring
        · rw [← hnd, List.range_succ, List.map_append, List.map_cons,
            List.map_nil, ← hpe]
      · have hnd : (n - 1) / m = n / m := by
          have hh := div_pred m n hpos
          rw [if_neg hdvd] at hh
          omega
        have hne : ¬ (n = ((n - 1) / m + 1) * m) := by
          intro he
          exact hdvd (by rw [he]; exact dvd_mul_left m _)
        simp only [scanStep]
        rw [if_neg hne, if_neg hnl, ← hnd]

lemma getLast?_range_map (f : Nat → Nat) (q : Nat) (hq : 1 ≤ q) :
    ((List.range q).map f).getLast? = some (f (q - 1)) := by
  obtain ⟨p, rfl⟩ : ∃ p, q = p + 1 := ⟨q - 1, by omega⟩
  rw [List.range_succ, List.map_append, List.map_cons, List.map_nil,
    List.getLast?_concat]
  simp

lemma scan_closed (lenstr m : Nat) (hm : 3 ≤ m) (h : m < lenstr) :
    scanT lenstr m =
      ⟨(lenstr / m + 1) * m, lenstr / m, true,
        (List.range (lenstr / m)).map (fun k => (k + 1) * m) ++ [lenstr]⟩ := by
  have hm1 : 1 ≤ m := by omega
  have hl1 : 1 ≤ lenstr := by omega
  have hq1 : 1 ≤ lenstr / m := (Nat.one_le_div_iff (by omega)).2 (le_of_lt h)
  unfold scanT
  rw [List.range_succ, List.foldl_append,
    scan_prefix lenstr m hm1 lenstr hl1 le_rfl]
  simp only [List.foldl_cons, List.foldl_nil]
  by_cases hdvd : m ∣ lenstr
  · have hnd : (lenstr - 1) / m + 1 = lenstr / m := by
      have hh := div_pred m lenstr hl1
      rw [if_pos hdvd] at hh
      omega
    have hpe : lenstr = ((lenstr - 1) / m + 1) * m := by
      rw [hnd, Nat.div_mul_cancel hdvd]
    simp only [scanStep]
    rw [if_pos hpe, if_true]
    dsimp only
    rw [List.getLast?_concat, Option.getD_some, Nat.sub_self, Nat.zero_add]
    refine scanSt_mk_eq ?_ hnd rfl ?_
    · rw [← hnd]; ring
    · have harr : (List.range ((lenstr - 1) / m)).map (fun k => (k + 1) * m)
          ++ [lenstr]
          = (List.range (lenstr / m)).map (fun k => (k + 1) * m) := by
        rw [← hnd, List.range_succ, List.map_append, List.map_cons,
          List.map_nil, ← hpe]
      rw [harr]
  · have hnd : (lenstr - 1) / m = lenstr / m := by
      have hh := div_pred m lenstr hl1
      rw [if_neg hdvd] at hh
      omega
    have hne : ¬ (lenstr = ((lenstr - 1) / m + 1) * m) := by
      intro he
      exact hdvd (by rw [he]; exact dvd_mul_left m _)
    simp only [scanStep]
    rw [if_neg hne, if_true]
    dsimp only
    rw [hnd, getLast?_range_map _ _ hq1, Option.getD_some]
    have he1 : lenstr / m - 1 + 1 = lenstr / m := by omega
    rw [he1]
    have he2 : lenstr - lenstr / m * m + lenstr / m * m = lenstr :=
      Nat.sub_add_cancel (Nat.div_mul_le_self lenstr m)
    rw [he2]

/-! ### Helper lemmas: the slicing loop and its chunks -/

lemma getD_concat_left {l : List Nat} {a : Nat} {i : Nat} (h : i < l.length) :
    (l ++ [a]).getD i 0 = l.getD i 0 := by
  rw [List.getD_eq_getElem?_getD, List.getD_eq_getElem?_getD,
    List.getElem?_append, if_pos h]

lemma getD_concat_right {l : List Nat} {a : Nat} :
    (l ++ [a]).getD l.length 0 = a := by
  rw [List.getD_eq_getElem?_getD, List.getElem?_append_right le_rfl,
    Nat.sub_self]
  rfl

lemma getD_range_map (f : Nat → Nat) (q i : Nat) (h : i < q) :
    ((List.range q).map f).getD i 0 = f i := by
  rw [List.getD_eq_getElem?_getD, List.getElem?_map, List.getElem?_range h]
  rfl

lemma wrapLoop_closed (dec : List Char → List Char) (s : List Char)
    (m q : Nat) (ap : List Nat) (hap1 : ap.getD (q - 1) 0 = q * m)
    (hap2 : ap.getD q 0 = s.length) :
    ∀ j i, i + j = q →
      wrapLoop dec s m ap q (j + 1) i (i * m) (i * m + m) =
        ((List.range j).map fun k =>
            dec (sliceN s ((i + k) * m) ((i + k + 1) * m)))
          ++ [dec (sliceN s (q * m) s.length)] := by
  intro j
  induction j with
  | zero =>
    intro i hi
    have hiq : i = q := by omega
    subst hiq
    simp only [wrapLoop]
    rw [if_true, hap1, hap2]
    simp
  | succ j ihj =>
    intro i hi
    have hne : ¬ (i = q) := by omega
    rw [wrapLoop]
    rw [if_neg hne]
    have e1 : i * m + m = (i + 1) * m := by ring
    have e2 : i * m + m + m = (i + 1) * m + m := by rw [e1]
    rw [e2, e1, ihj (i + 1) (by omega)]
    rw [List.range_succ_eq_map, List.map_cons, List.map_map,
      List.cons_append]
    simp only [Nat.add_zero]
    congr 2
    apply List.map_congr_left
    intro k _
    simp only [Function.comp_apply, Nat.succ_eq_add_one]
    rw [show i + (k + 1) = i + 1 + k from by omega]

lemma wrapAll_closed (dec : List Char → List Char) (s : List Char) (m : Nat)
    (hm : 3 ≤ m) (h : m < s.length) :
    wrapAll dec s m =
      ((List.range (s.length / m)).map fun k =>
          dec (sliceN s (k * m) ((k + 1) * m)))
        ++ [dec (sliceN s ((s.length / m) * m) s.length)] := by
  have hq1 : 1 ≤ s.length / m := (Nat.one_le_div_iff (by omega)).2 (le_of_lt h)
  simp only [wrapAll]
  rw [scan_closed s.length m hm h]
  dsimp only
  rw [if_pos rfl, Nat.add_sub_cancel]
  have hlmap : ((List.range (s.length / m)).map fun k => (k + 1) * m).length
      = s.length / m := by simp
  have hap1 : (((List.range (s.length / m)).map fun k => (k + 1) * m)
      ++ [s.length]).getD (s.length / m - 1) 0 = (s.length / m) * m := by
    rw [getD_concat_left (by rw [hlmap]; omega),
      getD_range_map _ _ _ (by omega)]
    congr 1
    omega
  have hap2 : (((List.range (s.length / m)).map fun k => (k + 1) * m)
      ++ [s.length]).getD (s.length / m) 0 = s.length := by
    have hg := @getD_concat_right
      ((List.range (s.length / m)).map fun k => (k + 1) * m) s.length
    rwa [hlmap] at hg
  have hcl := wrapLoop_closed dec s m (s.length / m) _ hap1 hap2
    (s.length / m) 0 (by omega)
  simp only [Nat.zero_mul, Nat.zero_add] at hcl
  exact hcl

lemma sliceN_chunk (s : List Char) (k m : Nat) :
    sliceN s (k * m) ((k + 1) * m) = (s.drop (k * m)).take m := by
  unfold sliceN
  congr 1
  rw [Nat.succ_mul]
  omega

lemma sliceN_last (s : List Char) (a : Nat) :
    sliceN s a s.length = s.drop a := by
  unfold sliceN
  rw [← List.length_drop]
  exact List.take_length _

lemma chunks_flatten :
    ∀ (q : Nat) (s : List Char) (m : Nat),
    ((List.range q).map fun k => (s.drop (k * m)).take m).flatten
      ++ s.drop (q * m) = s := by
  intro q
  induction q with
  | zero => intro s m; simp
  | succ q ih =>
    intro s m
    rw [List.range_succ_eq_map, List.map_cons, List.map_map,
      List.flatten_cons]
    simp only [Nat.zero_mul, List.drop_zero]
    rw [List.append_assoc]
    have hmap : (List.range q).map
          ((fun k => (s.drop (k * m)).take m) ∘ Nat.succ)
        = (List.range q).map fun k => (((s.drop m).drop (k * m)).take m) := by
      apply List.map_congr_left
      intro k _
      simp only [Function.comp_apply, Nat.succ_eq_add_one]
      rw [List.drop_drop]
      congr 2
      ring
    have hdrop : s.drop ((q + 1) * m) = (s.drop m).drop (q * m) := by
      rw [List.drop_drop]
      congr 1
      ring
    rw [hmap, hdrop, ih (s.drop m) m, List.take_append_drop]

/-! ### Derived facts about the produced chunks -/

lemma wrapAll_closed_chunks (s : List Char) (m : Nat)
    (hm : 3 ≤ m) (h : m < s.length) :
    wrapAll (fun c => c) s m =
      ((List.range (s.length / m)).map fun k => (s.drop (k * m)).take m)
        ++ [s.drop ((s.length / m) * m)] := by
  rw [wrapAll_closed _ s m hm h]
  simp only [sliceN_chunk, sliceN_last]

lemma wrapAll_map_dec (dec : List Char → List Char) (s : List Char) (m : Nat)
    (hm : 3 ≤ m) (h : m < s.length) :
    wrapAll dec s m = (wrapAll (fun c => c) s m).map dec := by
  rw [wrapAll_closed dec s m hm h, wrapAll_closed _ s m hm h]
  simp [List.map_map, Function.comp]

lemma wrapAll_flatten (s : List Char) (m : Nat)
    (hm : 3 ≤ m) (h : m < s.length) :
    (wrapAll (fun c => c) s m).flatten = s := by
  rw [wrapAll_closed_chunks s m hm h, List.flatten_append]
  simp only [List.flatten_cons, List.flatten_nil, List.append_nil]
  exact chunks_flatten (s.length / m) s m

lemma wrapChunks_flatten (s : List Char) (m : Nat) (hm : 3 ≤ m) :
    (wrapChunks s m).flatten = s := by
  unfold wrapChunks
  by_cases h : s.length > m
  · rw [if_pos h]
    exact wrapAll_flatten s m hm h
  · rw [if_neg h]
    simp

lemma wrapAll_length (s : List Char) (m : Nat)
    (hm : 3 ≤ m) (h : m < s.length) :
    (wrapAll (fun c => c) s m).length = s.length / m + 1 := by
  rw [wrapAll_closed_chunks s m hm h]
  simp

lemma wrapAll_dropLast (s : List Char) (m : Nat)
    (hm : 3 ≤ m) (h : m < s.length) :
    ∀ c ∈ (wrapAll (fun c => c) s m).dropLast, c.length = m := by
  rw [wrapAll_closed_chunks s m hm h, List.dropLast_concat]
  intro c hc
  obtain ⟨k, hk, rfl⟩ := List.mem_map.1 hc
  have hkq : k < s.length / m := List.mem_range.1 hk
  have h1 : (k + 1) * m ≤ s.length := by
    calc (k + 1) * m ≤ (s.length / m) * m :=
          Nat.mul_le_mul_right m (by omega)
      _ ≤ s.length := Nat.div_mul_le_self s.length m
  rw [Nat.succ_mul] at h1
  rw [List.length_take, List.length_drop]
  have h2 : m ≤ s.length - k * m := by omega
  omega

lemma wrapAll_getLast (s : List Char) (m : Nat)
    (hm : 3 ≤ m) (h : m < s.length) :
    (wrapAll (fun c => c) s m).getLast? = some (s.drop ((s.length / m) * m))
      ∧ (s.drop ((s.length / m) * m)).length = s.length % m := by
  constructor
  · rw [wrapAll_closed_chunks s m hm h, List.getLast?_concat]
  · rw [List.length_drop]
    have hdm := Nat.div_add_mod s.length m
    rw [Nat.mul_comm] at hdm
    omega

/-! ### Branch lemmas for the setters -/

lemma setTitle_str (e : Embed) (s : List Char) :
    setTitle e (StrArg.str s) =
      ⟨{ e with title := some (titleEmbedStr (effMax e.px) s) },
        some (), none⟩ := rfl

lemma setDescription_str (e : Embed) (s : List Char) (h : 1 ≤ s.length) :
    setDescription e (StrArg.str s) =
      ⟨{ e with description := some (descEmbedStr (effMax e.px) s) },
        some (), none⟩ := by
  show (if s.length < 1 then _ else _) = _
  rw [if_neg (by omega)]
  rfl

lemma titleEmbedStr_long {m : Nat} {s : List Char} (h : m < s.length) :
    titleEmbedStr m s = joinNL (wrapAll decTitle s m) := by
  simp only [titleEmbedStr]
  rw [if_pos h]

lemma titleEmbedStr_short {m : Nat} {s : List Char} (h : s.length ≤ m) :
    titleEmbedStr m s = decTitle s := by
  simp only [titleEmbedStr]
  rw [if_neg (by omega), if_pos (by omega)]

lemma descEmbedStr_long {m : Nat} {s : List Char} (h : m < s.length) :
    descEmbedStr m s = '\n' :: joinNL (wrapAll decDesc s m) ++ ['\n'] := by
  simp only [descEmbedStr]
  rw [if_pos h]

lemma descEmbedStr_short {m : Nat} {s : List Char} (h : s.length ≤ m) :
    descEmbedStr m s = '\n' :: decDesc s ++ ['\n'] := by
  simp only [descEmbedStr]
  rw [if_neg (by omega), if_pos (by omega)]

lemma effMax_obj (c : Nat) (ln : Option (List Char)) :
    effMax (PxVal.obj (some c) ln) = c := rfl

lemma sizeEmbed_num_pos (e : Embed) (n : Int) (hn : 2 < n ∧ n < 47) :
    sizeEmbed e (SizeArg.num n) =
      ⟨{ e with
          px := PxVal.obj (some n.toNat) (some (lineConvert (n - 4).natAbs)) },
        some Ret.self, none⟩ := by
  show (if 2 < n ∧ n < 47 then _ else _) = _
  rw [if_pos hn]

lemma sizeEmbed_num_neg (e : Embed) (n : Int) (hn : ¬ (2 < n ∧ n < 47)) :
    sizeEmbed e (SizeArg.num n) = ⟨e, none, some JSError.rangeError⟩ := by
  show (if 2 < n ∧ n < 47 then _ else _) = _
  rw [if_neg hn]

lemma setDescription_empty (e : Embed) (s : List Char) (h : s.length < 1) :
    setDescription e (StrArg.str s) = ⟨e, none, some JSError.typeError⟩ := by
  show (if s.length < 1 then _ else _) = _
  rw [if_pos h]
  rfl

lemma setFooter_long (e : Embed) (f : List Char) (h : f.length > 20) :
    setFooter e (StrArg.str f) = ⟨e, none, some JSError.rangeError⟩ := by
  show (if f.length > 20 then _ else _) = _
  rw [if_pos h]

lemma setFooter_ok (e : Embed) (f : List Char) (h : ¬ (f.length > 20)) :
    setFooter e (StrArg.str f) =
      ⟨{ e with footer := some ('│' :: ' ' :: codeFence ++ f ++ codeFence) },
        some (), none⟩ := by
  show (if f.length > 20 then _ else _) = _
  rw [if_neg h]

lemma mkEmbed_ok_px (d : EmbedData) (e : Embed)
    (hmk : mkEmbed d false = Except.ok e) :
    e.px = d.px.getD PxVal.nullV := by
  unfold mkEmbed at hmk
  cases hf : d.fields with
  | none =>
    rw [hf] at hmk
    dsimp only at hmk
    injection hmk with h
    rw [← h]
  | some fs =>
    rw [hf] at hmk
    dsimp only at hmk
    cases hnf : normalizeFields fs with
    | error er => rw [hnf] at hmk; exact absurd hmk (by simp)
    | ok nfs =>
      rw [hnf] at hmk
      injection hmk with h
      rw [← h]

/-! ### Concrete states used by witnesses and counterexamples -/

/-- A fresh embed (`new MessageEmbed({})`). -/
def embedNull : Embed := ⟨PxVal.nullV, none, none, TsVal.nullV, [], none⟩

/-- The embed obtained from a fresh one by `sizeEmbed(5)`. -/
def embedPx5 : Embed :=
  ⟨PxVal.obj (some 5) (some ['─']), none, none, TsVal.nullV, [], none⟩

/-! ### Claim theorems -/

/-- C4: the claim states that `sizeEmbed()` with no argument resets `px` to
the record `{char: null, line: null}`. The code cannot do this: the guard of
the reset branch, `!typeof px === "number" && px === undefined`, is always
`false` (`!` binds before `===`, and `!typeof px` is `false` for every
value), so a no-argument call falls through the whole body, leaves `px`
exactly as it was, and returns `undefined`. The dead branch body shows the
reset was the intent, so this is a bug in the code, exhibited here on an
embed whose `px` was previously set to `{char: 5, line: "─"}`. -/
theorem c4_sizeEmbed_noarg :
    (∀ e : Embed, sizeEmbed e SizeArg.undef = ⟨e, some Ret.undef, none⟩)
    ∧ (sizeEmbed embedPx5 SizeArg.undef).state.px
        = PxVal.obj (some 5) (some ['─'])
    ∧ (sizeEmbed embedPx5 SizeArg.undef).state.px ≠ PxVal.obj none none :=
  ⟨fun _ => rfl, rfl, by decide⟩

/-- C5: `sizeEmbed(px)` with an integer `px` in `[3,46]` (i.e. `2 < px < 47`)
sets `px` to `{char: px, line: "─" * |px-4|}` and returns the embed; with an
integer `px ≤ 2` or `px ≥ 47` it throws a `RangeError` and mutates nothing. -/
theorem c5_sizeEmbed (e : Embed) (n : Int) :
    (2 < n → n < 47 →
      sizeEmbed e (SizeArg.num n) =
        ⟨{ e with
            px := PxVal.obj (some n.toNat)
              (some (List.replicate (n - 4).natAbs '─')) },
          some Ret.self, none⟩)
    ∧ ((n ≤ 2 ∨ 47 ≤ n) →
      sizeEmbed e (SizeArg.num n) = ⟨e, none, some JSError.rangeError⟩) := by
  constructor
  · intro h2 h47
    rw [sizeEmbed_num_pos e n ⟨h2, h47⟩, lineConvert_replicate]
  · intro h
    exact sizeEmbed_num_neg e n (by omega)

/-- Witness for C5 at `px = 5` (accepted, one dash: `|5-4| = 1`) and
`px = 47` (rejected). -/
theorem c5_sizeEmbed_witness :
    sizeEmbed embedNull (SizeArg.num 5) =
      ⟨{ embedNull with
          px := PxVal.obj (some (Int.toNat 5))
            (some (List.replicate (Int.natAbs (5 - 4)) '─')) },
        some Ret.self, none⟩
    ∧ sizeEmbed embedNull (SizeArg.num 47)
        = ⟨embedNull, none, some JSError.rangeError⟩ :=
  ⟨(c5_sizeEmbed embedNull 5).1 (by decide) (by decide),
    (c5_sizeEmbed embedNull 47).2 (by decide)⟩

/-- C6: on an embed with effective width `m` (from `px.char`), for a string
`s` with `len(s) ≤ m`: the empty string throws a `TypeError`, and a
non-empty one sets `description` to exactly `"\n│ " + s + "\n"` (one
wall-prefixed content line, wrapped in a leading and a trailing blank
line). -/
theorem c6_setDescription (e : Embed) (m : Nat) (ln : Option (List Char))
    (s : List Char) (hpx : e.px = PxVal.obj (some m) ln)
    (h3 : 3 ≤ m) (h46 : m ≤ 46) (hle : s.length ≤ m) :
    setDescription e (StrArg.str []) = ⟨e, none, some JSError.typeError⟩
    ∧ (1 ≤ s.length →
        setDescription e (StrArg.str s) =
          ⟨{ e with
              description := some ('\n' :: '│' :: ' ' :: s ++ ['\n']) },
            some (), none⟩) := by
  refine ⟨setDescription_empty e [] (by simp), ?_⟩
  intro h1
  rw [setDescription_str e s h1, hpx, effMax_obj, descEmbedStr_short hle]
  rfl

/-- Witness for C6 at width 5 with `s = "abc"`. -/
theorem c6_setDescription_witness :
    setDescription embedPx5 (StrArg.str [])
        = ⟨embedPx5, none, some JSError.typeError⟩
    ∧ setDescription embedPx5 (StrArg.str "abc".toList) =
        ⟨{ embedPx5 with
            description := some ('\n' :: '│' :: ' ' :: "abc".toList ++ ['\n']) },
          some (), none⟩ := by
  have h := c6_setDescription embedPx5 5 (some ['─']) "abc".toList rfl
    (by decide) (by decide) (by decide)
  exact ⟨h.1, h.2 (by decide)⟩

/-- C7: `setFooter(f)` throws a `RangeError` when `len(f) > 20` (mutating
nothing), and for `len(f) ≤ 20` sets `footer` to
`"│ " + "` ++ "```" ++ `" + f + "` ++ "```" ++ `"` with no wrapping. -/
theorem c7_setFooter (e : Embed) (f : List Char) :
    (f.length > 20 →
      setFooter e (StrArg.str f) = ⟨e, none, some JSError.rangeError⟩)
    ∧ (f.length ≤ 20 →
      setFooter e (StrArg.str f) =
        ⟨{ e with
            footer := some ('│' :: ' ' :: codeFence ++ f ++ codeFence) },
          some (), none⟩) :=
  ⟨fun h => setFooter_long e f h, fun h => setFooter_ok e f (by omega)⟩

/-- Witness for C7 at a 21-character footer (rejected) and a 20-character
footer (accepted). -/
theorem c7_setFooter_witness :
    setFooter embedNull (StrArg.str (List.replicate 21 'x'))
        = ⟨embedNull, none, some JSError.rangeError⟩
    ∧ setFooter embedNull (StrArg.str (List.replicate 20 'x')) =
        ⟨{ embedNull with
            footer := some ('│' :: ' ' :: codeFence
              ++ List.replicate 20 'x' ++ codeFence) },
          some (), none⟩ :=
  ⟨(c7_setFooter embedNull (List.replicate 21 'x')).1 (by decide),
    (c7_setFooter embedNull (List.replicate 20 'x')).2 (by decide)⟩

/-- C8: atomicity on error — whenever `sizeEmbed`, `setTitle`,
`setDescription`, `setFooter`, `addField` or `addFields` throws, the embed's
observable state is exactly what it was before the call (every throw in the
source happens before any assignment; `addFields` evaluates
`normalizeFields` before `push`). -/
theorem c8_atomicity (e : Embed) :
    (∀ a : SizeArg,
      (sizeEmbed e a).err.isSome → (sizeEmbed e a).state = e)
    ∧ (∀ a : StrArg,
      (setTitle e a).err.isSome → (setTitle e a).state = e)
    ∧ (∀ a : StrArg,
      (setDescription e a).err.isSome → (setDescription e a).state = e)
    ∧ (∀ a : StrArg,
      (setFooter e a).err.isSome → (setFooter e a).state = e)
    ∧ (∀ n v : StrArg,
      (addField e n v).err.isSome → (addField e n v).state = e)
    ∧ (∀ fs : List FieldData,
      (addFields e fs).err.isSome → (addFields e fs).state = e) := by
  refine ⟨?_, ?_, ?_, ?_, ?_, ?_⟩
  · intro a ha
    cases a with
    | undef => rfl
    | other => rfl
    | num n =>
      by_cases hn : 2 < n ∧ n < 47
      · rw [sizeEmbed_num_pos e n hn] at ha
        simp at ha
      · rw [sizeEmbed_num_neg e n hn]
  · intro a ha
    cases a with
    | nonStr => rfl
    | str s =>
      rw [setTitle_str] at ha
      simp at ha
  · intro a ha
    cases a with
    | nonStr => rfl
    | str s =>
      by_cases hs : s.length < 1
      · rw [setDescription_empty e s hs]
      · rw [setDescription_str e s (by omega)] at ha
        simp at ha
  · intro a ha
    cases a with
    | nonStr => rfl
    | str f =>
      by_cases hf : f.length > 20
      · rw [setFooter_long e f hf]
      · rw [setFooter_ok e f hf] at ha
        simp at ha
  · intro n v ha
    unfold addField at ha ⊢
    cases hnf : normalizeFields [⟨n, v⟩] with
    | error er => simp only [addFields, hnf]
    | ok nfs =>
      simp only [addFields, hnf] at ha
      simp at ha
  · intro fs ha
    cases hnf : normalizeFields fs with
    | error er => simp only [addFields, hnf]
    | ok nfs =>
      simp only [addFields, hnf] at ha
      simp at ha

/-- Witness for C8: each throwing call, on a fresh embed, leaves the state
unchanged (`sizeEmbed(100)`, a 21-character footer, an empty description, a
field with an empty name). -/
theorem c8_atomicity_witness :
    (sizeEmbed embedNull (SizeArg.num 100)).state = embedNull
    ∧ (setFooter embedNull (StrArg.str (List.replicate 21 'y'))).state
        = embedNull
    ∧ (setDescription embedNull (StrArg.str [])).state = embedNull
    ∧ (addField embedNull (StrArg.str []) (StrArg.str ['a'])).state
        = embedNull := by
  have h := c8_atomicity embedNull
  exact ⟨h.1 (SizeArg.num 100) (by decide),
    h.2.2.2.1 (StrArg.str (List.replicate 21 'y')) (by decide),
    h.2.2.1 (StrArg.str []) (by decide),
    h.2.2.2.2.1 (StrArg.str []) (StrArg.str ['a']) (by decide)⟩

/-- C1: round-trip losslessness. For an embed whose effective width is
`m ∈ [3,46]`, the `setTitle(s)` output is exactly the chunk list
`wrapChunks s m` with each chunk decorated (`"│ " + " *" + chunk + "* "`)
and joined by newlines, and the chunk contents concatenate back to `s`
verbatim; `setDescription(s)` (for non-empty `s`, the empty string throws)
is the same chunk list under `"│ "` decoration, wrapped in a leading and a
trailing blank line, again with the chunks concatenating to `s`. -/
theorem c1_wrap_lossless (e : Embed) (m : Nat) (ln : Option (List Char))
    (s : List Char) (hpx : e.px = PxVal.obj (some m) ln)
    (h3 : 3 ≤ m) (h46 : m ≤ 46) :
    ((setTitle e (StrArg.str s)).state.title
        = some (joinNL ((wrapChunks s m).map decTitle))
      ∧ (wrapChunks s m).flatten = s)
    ∧ (1 ≤ s.length →
        (setDescription e (StrArg.str s)).state.description
          = some ('\n' :: joinNL ((wrapChunks s m).map decDesc) ++ ['\n'])
        ∧ (wrapChunks s m).flatten = s) := by
  have hflat := wrapChunks_flatten s m h3
  refine ⟨⟨?_, hflat⟩, fun h1 => ⟨?_, hflat⟩⟩
  · rw [setTitle_str]
    dsimp only
    rw [hpx, effMax_obj]
    unfold wrapChunks
    by_cases h : s.length > m
    · rw [if_pos h, titleEmbedStr_long h,
        wrapAll_map_dec decTitle s m h3 h]
    · rw [if_neg h, titleEmbedStr_short (by omega)]
      rfl
  · rw [setDescription_str e s h1]
    dsimp only
    rw [hpx, effMax_obj]
    unfold wrapChunks
    by_cases h : s.length > m
    · rw [if_pos h, descEmbedStr_long h,
        wrapAll_map_dec decDesc s m h3 h]
    · rw [if_neg h, descEmbedStr_short (by omega)]
      rfl

/-- Witness for C1 at width 5 with `s = "abcdefg"` (chunks `"abcde"`,
`"fg"`). -/
theorem c1_wrap_lossless_witness :
    ((setTitle embedPx5 (StrArg.str "abcdefg".toList)).state.title
        = some (joinNL ((wrapChunks "abcdefg".toList 5).map decTitle))
      ∧ (wrapChunks "abcdefg".toList 5).flatten = "abcdefg".toList)
    ∧ ((setDescription embedPx5 (StrArg.str "abcdefg".toList)).state.description
        = some ('\n' :: joinNL ((wrapChunks "abcdefg".toList 5).map decDesc)
            ++ ['\n'])
      ∧ (wrapChunks "abcdefg".toList 5).flatten = "abcdefg".toList) := by
  have h := c1_wrap_lossless embedPx5 5 (some ['─']) "abcdefg".toList rfl
    (by decide) (by decide)
  exact ⟨h.1, h.2 (by decide)⟩

/-- C2 counterexample: the claim says the final chunk always holds between 1
and `max` characters, but when `max` divides `len(s)` the code emits an
extra, empty final chunk. At width 5, `setTitle("HelloWorld")` produces the
chunks `"Hello"`, `"World"`, `""`, visible as a third output line
`"│  ** "`. -/
theorem c2_counterexample :
    ("HelloWorld".toList.length > 5
      ∧ (wrapAll (fun c => c) "HelloWorld".toList 5).getLast? = some []
      ∧ (setTitle embedPx5 (StrArg.str "HelloWorld".toList)).state.title
          = some "│  *Hello* \n│  *World* \n│  ** ".toList)
    ∧ ¬ (∀ c ∈ (wrapAll (fun c => c) "HelloWorld".toList 5).getLast?,
          1 ≤ c.length) := by
  refine ⟨⟨by decide, by decide, rfl⟩, ?_⟩
  intro hall
  have h := hall [] (by decide)
  simp at h

/-- C2 as amended: for `len(s) > max` (effective width `max ∈ [3,46]`), the
output lines carry, in order, chunks of which every one but the last has
exactly `max` characters, the chunks concatenate to `s` exactly, and the
final chunk holds `len(s) mod max` characters — between 1 and `max - 1`
when `max` does not divide `len(s)`, and an empty chunk (0 characters,
rather than the claimed 1..max) when it does. -/
theorem c2_chunk_shape (s : List Char) (m : Nat) (e : Embed)
    (ln : Option (List Char)) (hpx : e.px = PxVal.obj (some m) ln)
    (h3 : 3 ≤ m) (h46 : m ≤ 46) (hlen : m < s.length) :
    (∀ c ∈ (wrapAll (fun c => c) s m).dropLast, c.length = m)
    ∧ (∀ c ∈ (wrapAll (fun c => c) s m).getLast?,
        c.length = s.length % m)
    ∧ (wrapAll (fun c => c) s m).flatten = s
    ∧ (setTitle e (StrArg.str s)).state.title
        = some (joinNL ((wrapAll (fun c => c) s m).map decTitle)) := by
  refine ⟨wrapAll_dropLast s m h3 hlen, ?_,
    wrapAll_flatten s m h3 hlen, ?_⟩
  · obtain ⟨hg, hl⟩ := wrapAll_getLast s m h3 hlen
    intro c hc
    rw [hg, Option.mem_some_iff] at hc
    rw [← hc]
    exact hl
  · rw [setTitle_str]
    dsimp only
    rw [hpx, effMax_obj, titleEmbedStr_long hlen,
      wrapAll_map_dec decTitle s m h3 hlen]

/-- Witness for C2 (amended) at width 5 with `s = "abcdefg"`: the first
chunk `"abcde"` has 5 characters, the last has `7 mod 5 = 2`, and the
chunks concatenate to `s`. -/
theorem c2_chunk_shape_witness :
    "abcde".toList.length = 5
    ∧ (wrapAll (fun c => c) "abcdefg".toList 5).flatten = "abcdefg".toList
    ∧ (setTitle embedPx5 (StrArg.str "abcdefg".toList)).state.title
        = some (joinNL ((wrapAll (fun c => c) "abcdefg".toList 5).map
            decTitle)) := by
  have h := c2_chunk_shape "abcdefg".toList 5 embedPx5 (some ['─']) rfl
    (by decide) (by decide) (by decide)
  exact ⟨h.1 "abcde".toList (by decide), h.2.2.1, h.2.2.2⟩

/-- C3 counterexample: the claim's own example fails. At width 5,
`setTitle("HelloWorld")` produces three lines
`"│  *Hello* \n│  *World* \n│  ** "`, not the claimed two lines
`"│  *Hello* \n│  *World* "`: `len = 10` is an exact multiple of 5, so the
code emits `ceil(10/5) + 1 = 3` lines, the last with empty content. -/
theorem c3_counterexample :
    (setTitle embedPx5 (StrArg.str "HelloWorld".toList)).state.title
        = some "│  *Hello* \n│  *World* \n│  ** ".toList
    ∧ (wrapAll (fun c => c) "HelloWorld".toList 5).length = 3
    ∧ ("HelloWorld".toList.length + 5 - 1) / 5 = 2
    ∧ (setTitle embedPx5 (StrArg.str "HelloWorld".toList)).state.title
        ≠ some "│  *Hello* \n│  *World* ".toList := by
  refine ⟨rfl, by decide, by decide, by decide⟩

/-- C3 as amended: for `len(s) > max` (effective width `max ∈ [3,46]`), the
wrapped output has `len(s) / max + 1` lines (integer division): this equals
`ceil(len/max)` exactly when `max` does not divide `len(s)`, and is
`ceil(len/max) + 1` — one extra line with empty chunk content — when it
does. -/
theorem c3_line_count (s : List Char) (m : Nat) (e : Embed)
    (ln : Option (List Char)) (hpx : e.px = PxVal.obj (some m) ln)
    (h3 : 3 ≤ m) (h46 : m ≤ 46) (hlen : m < s.length) :
    (wrapAll (fun c => c) s m).length = s.length / m + 1
    ∧ (¬ m ∣ s.length →
        (wrapAll (fun c => c) s m).length = (s.length + m - 1) / m)
    ∧ (m ∣ s.length →
        (wrapAll (fun c => c) s m).length
          = (s.length + m - 1) / m + 1)
    ∧ (setTitle e (StrArg.str s)).state.title
        = some (joinNL ((wrapAll (fun c => c) s m).map decTitle)) := by
  have hcount := wrapAll_length s m h3 hlen
  have hl1 : 1 ≤ s.length := by omega
  refine ⟨hcount, ?_, ?_, ?_⟩
  · intro hdvd
    rw [hcount]
    have he : s.length + m - 1 = (s.length - 1) + m := by omega
    rw [he, Nat.add_div_right _ (by omega)]
    have hh := div_pred m s.length hl1
    rw [if_neg hdvd] at hh
    omega
  · intro hdvd
    rw [hcount]
    have he : s.length + m - 1 = (s.length - 1) + m := by omega
    rw [he, Nat.add_div_right _ (by omega)]
    have hh := div_pred m s.length hl1
    rw [if_pos hdvd] at hh
    omega
  · rw [setTitle_str]
    dsimp only
    rw [hpx, effMax_obj, titleEmbedStr_long hlen,
      wrapAll_map_dec decTitle s m h3 hlen]

/-- Witness for C3 (amended) at width 5 with `s = "abcdefg"`:
`7 / 5 + 1 = 2` lines, which equals `ceil(7/5)` since 5 does not divide
7. -/
theorem c3_line_count_witness :
    (wrapAll (fun c => c) "abcdefg".toList 5).length
        = "abcdefg".toList.length / 5 + 1
    ∧ (wrapAll (fun c => c) "abcdefg".toList 5).length
        = ("abcdefg".toList.length + 5 - 1) / 5
    ∧ (setTitle embedPx5 (StrArg.str "abcdefg".toList)).state.title
        = some (joinNL ((wrapAll (fun c => c) "abcdefg".toList 5).map
            decTitle)) := by
  have h := c3_line_count "abcdefg".toList 5 embedPx5 (some ['─']) rfl
    (by decide) (by decide) (by decide)
  exact ⟨h.1, h.2.1 (by decide), h.2.2.2⟩

/-- C9 counterexample: the claim says the `timestamp` key of the snapshot is
`null` whenever the stored timestamp is not truthy, but
`this.timestamp && new Date(this.timestamp)` evaluates to the stored falsy
value itself. An embed constructed from `{timestamp: 0}` stores `0`, and its
snapshot's `timestamp` is `0`, not `null`. -/
theorem c9_counterexample :
    mkEmbed { timestamp := some 0 } false =
      Except.ok ⟨PxVal.nullV, none, none, TsVal.num 0, [], none⟩
    ∧ (toJSON ⟨PxVal.nullV, none, none, TsVal.num 0, [], none⟩).timestamp
        = TsOut.num 0
    ∧ TsOut.num 0 ≠ TsOut.nullV
    ∧ tsTruthy (TsVal.num 0) = false :=
  ⟨rfl, rfl, by decide, rfl⟩

/-- C9 as amended: in the `toJSON` snapshot the `timestamp` key is a `Date`
built from the stored timestamp whenever that value is truthy; otherwise the
stored falsy value itself is passed through unchanged — which is `null`
exactly when the stored value is `null` (but `0` stays `0` and `""` stays
`""`). The other keys are passed through unchanged. -/
theorem c9_timestamp_passthrough (e : Embed) :
    ((toJSON e).timestamp = TsOut.nullV ↔ e.timestamp = TsVal.nullV)
    ∧ (tsTruthy e.timestamp = true →
        (toJSON e).timestamp = TsOut.dateOf e.timestamp)
    ∧ (tsTruthy e.timestamp = false →
        (toJSON e).timestamp = tsOutOfVal e.timestamp)
    ∧ (toJSON e).px = e.px ∧ (toJSON e).title = e.title
    ∧ (toJSON e).description = e.description
    ∧ (toJSON e).fields = e.fields ∧ (toJSON e).footer = e.footer := by
  refine ⟨?_, ?_, ?_, rfl, rfl, rfl, rfl, rfl⟩
  · show (if tsTruthy e.timestamp then TsOut.dateOf e.timestamp
      else tsOutOfVal e.timestamp) = TsOut.nullV ↔ _
    cases hts : e.timestamp with
    | nullV => simp [tsTruthy, tsOutOfVal]
    | num n =>
      by_cases hn : n = 0
      · subst hn
        simp [tsTruthy, tsOutOfVal]
      · simp [tsTruthy, tsOutOfVal, hn]
    | str s =>
      by_cases hs : s = []
      · subst hs
        simp [tsTruthy, tsOutOfVal]
      · simp [tsTruthy, tsOutOfVal, hs]
  · intro ht
    show (if tsTruthy e.timestamp then TsOut.dateOf e.timestamp
      else tsOutOfVal e.timestamp) = _
    rw [ht, if_pos rfl]
  · intro ht
    show (if tsTruthy e.timestamp then TsOut.dateOf e.timestamp
      else tsOutOfVal e.timestamp) = _
    rw [ht]
    rfl

/-- Witness for C9 (amended): a truthy stored timestamp (`5`) becomes a
`Date`; a falsy one (`0`) is passed through. -/
theorem c9_timestamp_passthrough_witness :
    (toJSON ⟨PxVal.nullV, none, none, TsVal.num 5, [], none⟩).timestamp
        = TsOut.dateOf (TsVal.num 5)
    ∧ (toJSON ⟨PxVal.nullV, none, none, TsVal.num 0, [], none⟩).timestamp
        = tsOutOfVal (TsVal.num 0) :=
  ⟨(c9_timestamp_passthrough
      ⟨PxVal.nullV, none, none, TsVal.num 5, [], none⟩).2.1 (by decide),
    (c9_timestamp_passthrough
      ⟨PxVal.nullV, none, none, TsVal.num 0, [], none⟩).2.2.1 (by decide)⟩

/-- C10: a numeric `px` supplied at construction never influences wrapping.
The constructor stores the number in `this.px`, but `setTitle`/
`setDescription` read `this.px.char`, which a plain number does not have, so
the default width 28 is used: the title output is identical to that of an
embed with `px = null`, and any string of at most 28 characters stays on a
single line even when it is longer than the constructor-supplied number. -/
theorem c10_constructor_px_ignored (n : Int) (d : EmbedData) (e : Embed)
    (hd : d.px = some (PxVal.num n))
    (hmk : mkEmbed d false = Except.ok e) :
    e.px = PxVal.num n
    ∧ effMax e.px = 28
    ∧ (∀ s : List Char,
        (setTitle e (StrArg.str s)).state.title
          = (setTitle { e with px := PxVal.nullV }
              (StrArg.str s)).state.title)
    ∧ (∀ s : List Char, s.length ≤ 28 →
        (setTitle e (StrArg.str s)).state.title = some (decTitle s)) := by
  have hpx : e.px = PxVal.num n := by
    rw [mkEmbed_ok_px d e hmk, hd]
    rfl
  refine ⟨hpx, by rw [hpx]; rfl, ?_, ?_⟩
  · intro s
    rw [setTitle_str, setTitle_str]
    dsimp only
    rw [hpx]
    rfl
  · intro s hs
    rw [setTitle_str]
    dsimp only
    rw [hpx, show effMax (PxVal.num n) = 28 from rfl,
      titleEmbedStr_short hs]

/-- Witness for C10: an embed built from `{px: 5}` wraps `"HelloWorld"`
(10 characters, longer than 5) at width 28, leaving it on one line, exactly
as the null-size embed does. -/
theorem c10_constructor_px_ignored_witness :
    (⟨PxVal.num 5, none, none, TsVal.nullV, [], none⟩ : Embed).px
        = PxVal.num 5
    ∧ effMax (PxVal.num 5) = 28
    ∧ (setTitle ⟨PxVal.num 5, none, none, TsVal.nullV, [], none⟩
          (StrArg.str "HelloWorld".toList)).state.title
        = (setTitle ⟨PxVal.nullV, none, none, TsVal.nullV, [], none⟩
            (StrArg.str "HelloWorld".toList)).state.title
    ∧ (setTitle ⟨PxVal.num 5, none, none, TsVal.nullV, [], none⟩
          (StrArg.str "HelloWorld".toList)).state.title
        = some (decTitle "HelloWorld".toList) := by
  have h := c10_constructor_px_ignored 5 { px := some (PxVal.num 5) }
    ⟨PxVal.num 5, none, none, TsVal.nullV, [], none⟩ rfl rfl
  exact ⟨h.1, h.2.1, h.2.2.1 "HelloWorld".toList,
    h.2.2.2 "HelloWorld".toList (by decide)⟩

end HedystiaMD
